import Mathlib

/-!
Verification of the Z-language markup structural validator.

The definitions below are a shallow embedding of the line-oriented
validator implemented in `z-markup-parser.ts` (class `ZMarkupParser`) and
of the validation entry point `validateZLanguageText` in the language
server.  JavaScript regular expressions are embedded as deterministic
scanners over `List Char`; their equivalence with the backtracking regex
is forced by the character classes involved (each greedy run is followed
by a character class disjoint from the run's class, so backtracking can
never change the captures).

The registry is external JSON loaded by `loadRegistry`; the validator
only reads `targets` (with `mode` and `allowedChildren`) and
`namespaces` (with `allowedChildren`), so only those fields are
modelled.  JavaScript objects are modelled as association lists; the
`x || []` defaulting of a possibly-missing `allowedChildren` field is
modelled by making the field total (an absent field and `[]` are
indistinguishable to the validator).
-/

/-- The JavaScript whitespace class used by `\s`, `trim` and the regex
matches, restricted to its ASCII members plus NBSP; the remaining
Unicode space characters of `\s` are not modelled. -/
def isJsWs (c : Char) : Bool :=
  c = ' ' || c = '\t' || c = '\n' || c = '\r' || c = '\x0b' || c = '\x0c' || c = ' '

/-- The regex class `[a-zA-Z]`. -/
def isAsciiLetter (c : Char) : Bool :=
  ('a' ≤ c && c ≤ 'z') || ('A' ≤ c && c ≤ 'Z')

/-- The regex class `[A-Z]`. -/
def isUpperLetter (c : Char) : Bool :=
  'A' ≤ c && c ≤ 'Z'

/-- The regex class `[a-zA-Z0-9_]` (keyword / simple-child characters). -/
def isKwChar (c : Char) : Bool :=
  isAsciiLetter c || ('0' ≤ c && c ≤ '9') || c = '_'

/-- The regex class `[a-zA-Z0-9_-]` (element-name characters). -/
def isNameChar (c : Char) : Bool :=
  isKwChar c || c = '-'

/-- `text.split(/\r?\n/)`: split on `\r\n` or `\n`, a `\r\n` pair being
consumed together. -/
def splitLinesAux : List Char → List Char → List String
  | [], acc => [String.mk acc.reverse]
  | '\r' :: '\n' :: rest, acc => String.mk acc.reverse :: splitLinesAux rest []
  | '\n' :: rest, acc => String.mk acc.reverse :: splitLinesAux rest []
  | c :: rest, acc => splitLinesAux rest (c :: acc)

/-- All lines of the document, in order (JS `String.prototype.split`). -/
def splitLines (s : String) : List String :=
  splitLinesAux s.data []

/-- Remove trailing JS whitespace. -/
def trimTail (cs : List Char) : List Char :=
  (cs.reverse.dropWhile isJsWs).reverse

/-- `line.trim()` on the character list of the line. -/
def trimList (cs : List Char) : List Char :=
  trimTail (cs.dropWhile isJsWs)

/-- `trimmedLine.startsWith("//")`. -/
def hasCommentPre (cs : List Char) : Bool :=
  match cs with
  | c1 :: c2 :: _ => c1 == '/' && c2 == '/'
  | _ => false

/-- Whether the first character after optional whitespace is `{`
(the `\s*(\{?)` tail of the three line regexes). -/
def braceAfterWs (cs : List Char) : Bool :=
  match cs.dropWhile isJsWs with
  | '\x7b' :: _ => true
  | _ => false

/-- Result of the element-declaration regex
`^(\s*)([a-zA-Z][a-zA-Z0-9_]*)\s+([a-zA-Z][a-zA-Z0-9_-]*)\s*(\{?)(.*)$`. -/
structure ElemMatch where
  indent : Nat
  keyword : String
  name : String
  openBrace : Bool
deriving DecidableEq, Repr

/-- The element-declaration regex of `validateLine`, as a deterministic
scanner: leading whitespace, a keyword run, mandatory whitespace, a name
run, then an optional `{` after optional whitespace. -/
def elementMatch (cs : List Char) : Option ElemMatch :=
  let ind := cs.takeWhile isJsWs
  let r1 := cs.dropWhile isJsWs
  match r1 with
  | [] => none
  | c :: _ =>
    if isAsciiLetter c then
      let kw := r1.takeWhile isKwChar
      let r2 := r1.dropWhile isKwChar
      match r2 with
      | [] => none
      | c2 :: _ =>
        if isJsWs c2 then
          let r3 := r2.dropWhile isJsWs
          match r3 with
          | [] => none
          | c3 :: _ =>
            if isAsciiLetter c3 then
              let nm := r3.takeWhile isNameChar
              let r4 := r3.dropWhile isNameChar
              some ⟨ind.length, String.mk kw, String.mk nm, braceAfterWs r4⟩
            else none
        else none
    else none

/-- Result of the simple-child regex and of the namespace regex:
indentation width, the raw matched token (brackets included for the
dynamic-route form) and the open-brace flag. -/
structure ChildMatch where
  indent : Nat
  childName : String
  openBrace : Bool
deriving DecidableEq, Repr

/-- The simple-child regex
`^(\s+)([a-zA-Z][a-zA-Z0-9_]*|\[[a-zA-Z][a-zA-Z0-9_]*\])\s*(\{?)(.*)$`
of `validateLine` (mandatory indentation, then either a plain identifier
run or a bracketed dynamic-route identifier). -/
def childMatch (cs : List Char) : Option ChildMatch :=
  let ind := cs.takeWhile isJsWs
  if ind = [] then none
  else
    match cs.dropWhile isJsWs with
    | [] => none
    | '[' :: rest =>
      match rest with
      | [] => none
      | c :: _ =>
        if isAsciiLetter c then
          let run := rest.takeWhile isKwChar
          match rest.dropWhile isKwChar with
          | ']' :: r3 =>
            some ⟨ind.length, String.mk ('[' :: run ++ [']']), braceAfterWs r3⟩
          | _ => none
        else none
    | c :: _ =>
      if isAsciiLetter c then
        let run := (cs.dropWhile isJsWs).takeWhile isKwChar
        let r2 := (cs.dropWhile isJsWs).dropWhile isKwChar
        some ⟨ind.length, String.mk run, braceAfterWs r2⟩
      else none

/-- The namespace regex `^(\s+)([A-Z][a-zA-Z0-9_]*)\s*(\{?)(.*)$` of
`validateLine`. -/
def namespaceMatch (cs : List Char) : Option ChildMatch :=
  let ind := cs.takeWhile isJsWs
  if ind = [] then none
  else
    match cs.dropWhile isJsWs with
    | [] => none
    | c :: _ =>
      if isUpperLetter c then
        let run := (cs.dropWhile isJsWs).takeWhile isKwChar
        let r2 := (cs.dropWhile isJsWs).dropWhile isKwChar
        some ⟨ind.length, String.mk run, braceAfterWs r2⟩
      else none

/-- `childName.replace(/^\[|\]$/g, "")`: strip one leading `[` and one
trailing `]` (each independently, as the global alternation does). -/
def stripBrackets (s : String) : String :=
  let l : List Char :=
    match s.data with
    | '[' :: rest => rest
    | cs => cs
  let r : List Char :=
    match l.reverse with
    | ']' :: rest => rest.reverse
    | _ => l
  String.mk r

/-- Parse mode of a registry entry. -/
inductive Mode where
  | markup
  | code
deriving DecidableEq, Repr

/-- The fields of a registry target that the validator reads
(`description`, `defaultPackages` and `compiler` are consumed only by
the excluded scaffolding functionality). -/
structure TargetInfo where
  mode : Mode
  allowedChildren : List String
deriving DecidableEq, Repr

/-- The field of a registry namespace that the validator reads. -/
structure NamespaceInfo where
  allowedChildren : List String
deriving DecidableEq, Repr

/-- The externally supplied registry (JSON objects as association
lists; lookup takes the first binding, keys are unique in JSON). -/
structure Registry where
  targets : List (String × TargetInfo)
  namespaces : List (String × NamespaceInfo)
deriving DecidableEq, Repr

/-- JavaScript object property lookup on an association list. -/
def lookupKey {α : Type} (m : List (String × α)) (k : String) : Option α :=
  match m with
  | [] => none
  | (k', v) :: rest => if k' = k then some v else lookupKey rest k

/-- One frame of the validator's context stack. -/
structure ValidationContext where
  elementType : String
  elementName : String
  allowedChildren : List String
  mode : Mode
  line : Nat
deriving DecidableEq, Repr

/-- The per-line parse record handed to the validation routines. -/
structure ParsedElement where
  keyword : String
  name : String
  line : Nat
  startChar : Nat
  endChar : Nat
deriving DecidableEq, Repr

/-- Diagnostic severity (only Error and Warning are used). -/
inductive Severity where
  | error
  | warning
deriving DecidableEq, Repr

/-- A zero-based line/character position. -/
structure Pos where
  line : Nat
  character : Nat
deriving DecidableEq, Repr

/-- A diagnostic range; `stop` models the source's `end` field (`end`
is a Lean keyword). -/
structure DiagRange where
  start : Pos
  stop : Pos
deriving DecidableEq, Repr

/-- One diagnostic record (`MarkupDiagnostic` / `ValidationDiagnostic`
in the source, which are structurally identical). -/
structure MarkupDiagnostic where
  severity : Severity
  range : DiagRange
  message : String
  source : String
deriving DecidableEq, Repr

/-- The mutable fields of a `ZMarkupParser` instance.  The JS array's
last element (top of stack) is the list head here. -/
structure ParserState where
  contextStack : List ValidationContext
  diagnostics : List MarkupDiagnostic
deriving DecidableEq, Repr

/-- A single quote character, for building the diagnostic messages. -/
def quoteTok (s : String) : String :=
  "\x27" ++ s ++ "\x27"

/-- Message of the invalid-element-name diagnostic. -/
def invalidNameMsg (name : String) : String :=
  "Invalid element name " ++ quoteTok name ++
    ". Must start with a letter and contain only letters, numbers, underscores, and dashes"

/-- Message of the reserved-name diagnostic. -/
def reservedNameMsg (name : String) : String :=
  quoteTok name ++ " is a reserved name and cannot be used"

/-- Message of the child-outside-any-context diagnostic. -/
def unexpectedChildMsg (k : String) : String :=
  "Unexpected child element " ++ quoteTok k ++ " outside of any parent context"

/-- Message of the disallowed-child diagnostic. -/
def notAllowedMsg (k parent joined : String) : String :=
  quoteTok k ++ " is not allowed in " ++ quoteTok parent ++ ". Allowed children: " ++ joined

/-- Message of the element-with-no-parent-context diagnostic. -/
def noParentMsg (k : String) : String :=
  "Unexpected element " ++ quoteTok k ++ " - no parent context"

/-- Message of the unsupported-workspace diagnostic. -/
def workspaceUnsupportedMsg : String :=
  "workspace is not supported in this Z language version"

/-- Message of the unknown-root-element diagnostic. -/
def unknownRootMsg (k : String) (valid : List String) : String :=
  "Unknown root element " ++ quoteTok k ++ ". Valid root elements: " ++
    String.intercalate ", " valid

/-- `addDiagnostic`: append one record anchored to the element's keyword
span. -/
def addDiagnostic (st : ParserState) (e : ParsedElement) (msg : String)
    (sev : Severity) : ParserState :=
  { st with diagnostics := st.diagnostics ++
      [{ severity := sev,
         range := { start := { line := e.line, character := e.startChar },
                    stop := { line := e.line, character := e.endChar } },
         message := msg,
         source := "z-markup" }] }

/-- `popContext`: JS `Array.prototype.pop`, a no-op on the empty stack. -/
def popContext (st : ParserState) : ParserState :=
  { st with contextStack := st.contextStack.tail }

/-- `getCurrentContext`: top of the stack, or none. -/
def getCurrentContext (st : ParserState) : Option ValidationContext :=
  st.contextStack.head?

/-- `isChildAllowed`: wildcard or direct membership. -/
def isChildAllowed (childKeyword : String) (context : ValidationContext) : Bool :=
  context.allowedChildren.contains "*" || context.allowedChildren.contains childKeyword

/-- `pushContext`: resolve allowed children and mode from the registry
and push a new frame. -/
def pushContext (reg : Registry) (st : ParserState) (keyword name : String)
    (line : Nat) : ParserState :=
  let acm : List String × Mode :=
    if keyword = "workspace" then
      (reg.targets.map Prod.fst, Mode.markup)
    else
      match lookupKey reg.targets keyword with
      | some t => (t.allowedChildren, t.mode)
      | none =>
        match lookupKey reg.namespaces keyword with
        | some n => (n.allowedChildren, Mode.markup)
        | none => (["*"], Mode.markup)
  { st with contextStack :=
      { elementType := keyword, elementName := name,
        allowedChildren := acm.1, mode := acm.2, line := line } :: st.contextStack }

/-- The fixed reserved-word list. -/
def reservedNames : List String :=
  ["function", "class", "interface", "let", "const", "var"]

/-- The name pattern `^[a-zA-Z][a-zA-Z0-9_-]*$` of `validateElementName`. -/
def namePat (s : String) : Bool :=
  match s.data with
  | [] => false
  | c :: rest => isAsciiLetter c && rest.all isNameChar

/-- `validateElementName`: pattern check then reserved-name check. -/
def validateElementName (st : ParserState) (e : ParsedElement) : ParserState :=
  let st1 :=
    if namePat e.name then st
    else addDiagnostic st e (invalidNameMsg e.name) Severity.error
  if reservedNames.contains e.name then
    addDiagnostic st1 e (reservedNameMsg e.name) Severity.error
  else st1

/-- `validateRootElement`: the root marker, then the target map, then the
unknown-root diagnostic. -/
def validateRootElement (reg : Registry) (st : ParserState) (e : ParsedElement) :
    ParserState :=
  if e.keyword = "workspace" then
    if (lookupKey reg.targets "workspace").isNone then
      addDiagnostic st e workspaceUnsupportedMsg Severity.error
    else st
  else
    match lookupKey reg.targets e.keyword with
    | some _ => st
    | none =>
      let validRoots := "workspace" :: reg.targets.map Prod.fst
      addDiagnostic st e (unknownRootMsg e.keyword validRoots) Severity.error

/-- `validateChildElement`: nested element check against the captured
context. -/
def validateChildElement (st : ParserState) (e : ParsedElement)
    (context : Option ValidationContext) : ParserState :=
  match context with
  | none => addDiagnostic st e (noParentMsg e.keyword) Severity.error
  | some ctx =>
    if isChildAllowed e.keyword ctx then st
    else
      addDiagnostic st e
        (notAllowedMsg e.keyword ctx.elementType (String.intercalate ", " ctx.allowedChildren))
        Severity.error

/-- `validateChild`: bare-child check against the current context. -/
def validateChild (st : ParserState) (e : ParsedElement) : ParserState :=
  match getCurrentContext st with
  | none => addDiagnostic st e (unexpectedChildMsg e.keyword) Severity.error
  | some ctx =>
    if isChildAllowed e.keyword ctx then st
    else
      addDiagnostic st e
        (notAllowedMsg e.keyword ctx.elementType (String.intercalate ", " ctx.allowedChildren))
        Severity.error

/-- `validateElement`: name checks always, then the root check when the
indentation level is zero, otherwise the nested-child check against the
context captured on entry. -/
def validateElement (reg : Registry) (st : ParserState) (e : ParsedElement)
    (indentLevel : Nat) : ParserState :=
  let currentContext := getCurrentContext st
  let st1 := validateElementName st e
  if indentLevel = 0 then validateRootElement reg st1 e
  else validateChildElement st1 e currentContext

/-- `validateLine`: guards, then the three regex shapes in priority
order, mirroring the source exactly. -/
def validateLine (reg : Registry) (st : ParserState) (line : String)
    (lineNumber : Nat) : ParserState :=
  let t := trimList line.data
  if t = [] then st
  else if hasCommentPre t then st
  else if t = ['\x7d'] then popContext st
  else
    match elementMatch line.data with
    | some m =>
      let e : ParsedElement :=
        { keyword := m.keyword, name := m.name, line := lineNumber,
          startChar := m.indent, endChar := m.indent + m.keyword.length }
      let st1 := validateElement reg st e (m.indent / 2)
      if m.openBrace then pushContext reg st1 m.keyword m.name lineNumber else st1
    | none =>
      match childMatch line.data with
      | some m =>
        let clean := stripBrackets m.childName
        let e : ParsedElement :=
          { keyword := clean, name := clean, line := lineNumber,
            startChar := m.indent, endChar := m.indent + m.childName.length }
        let st1 := validateChild st e
        if m.openBrace then pushContext reg st1 clean clean lineNumber else st1
      | none =>
        match namespaceMatch line.data with
        | some m =>
          let e : ParsedElement :=
            { keyword := m.childName, name := m.childName, line := lineNumber,
              startChar := m.indent, endChar := m.indent + m.childName.length }
          let st1 := validateChild st e
          if m.openBrace then pushContext reg st1 m.childName m.childName lineNumber else st1
        | none => st

/-- The `validateZMarkup` method: reset the instance state, then process
every line in order. -/
def runValidateZMarkup (reg : Registry) (st : ParserState) (text : String) :
    ParserState :=
  let st1 : ParserState := { st with diagnostics := [], contextStack := [] }
  (splitLines text).enum.foldl (fun s p => validateLine reg s p.2 p.1) st1

/-- The diagnostic list returned by `validateZMarkup`. -/
def validateZMarkup (reg : Registry) (text : String) : List MarkupDiagnostic :=
  (runValidateZMarkup reg { contextStack := [], diagnostics := [] } text).diagnostics

/-- The needle of the supplementary marker scan. -/
def todoChars : List Char :=
  ['T', 'O', 'D', 'O']

/-- `String.prototype.indexOf` for a fixed needle: index of the first
occurrence, or none. -/
def indexOfSub (needle : List Char) : List Char → Nat → Option Nat
  | [], i => if needle.isPrefixOf ([] : List Char) then some i else none
  | c :: rest, i =>
    if needle.isPrefixOf (c :: rest) then some i else indexOfSub needle rest (i + 1)

/-- The warning pushed for a TODO marker found at character `j` of line
`i`. -/
def todoDiag (i j : Nat) : MarkupDiagnostic :=
  { severity := Severity.warning,
    range := { start := { line := i, character := j },
               stop := { line := i, character := j + 4 } },
    message := "Reminder: TODO found",
    source := "z-lsp" }

/-- The supplementary marker scan of `validateZLanguageText`: one
warning per line whose `indexOf("TODO")` is not `-1`, anchored at the
first occurrence. -/
def todoScan (text : String) : List MarkupDiagnostic :=
  (splitLines text).enum.filterMap (fun p =>
    match indexOfSub todoChars p.2.data 0 with
    | some j => some (todoDiag p.1 j)
    | none => none)

/-- `validateZLanguageText`: the structural diagnostics (converted
field-by-field) followed by the marker scan when the registry loads, and
the marker scan alone when registry loading throws (`none`). -/
def validateZLanguageText (regLoad : Option Registry) (text : String) :
    List MarkupDiagnostic :=
  match regLoad with
  | some reg =>
    (validateZMarkup reg text).map
      (fun d => { severity := d.severity, range := d.range,
                  message := d.message, source := d.source }) ++ todoScan text
  | none => todoScan text

/-- A registry with a single target `page` that allows no children. -/
def regPageOnly : Registry :=
  { targets := [("page", { mode := Mode.markup, allowedChildren := [] })],
    namespaces := [] }

/-- A registry with a single target `page` whose allowed-children set is
the wildcard. -/
def regPageWild : Registry :=
  { targets := [("page", { mode := Mode.markup, allowedChildren := ["*"] })],
    namespaces := [] }

/-- C1, counterexample: on the one-line document consisting of the
indented line `  page Home` the context stack is empty at that line (it
is the only line), and `page` is a registered target, so by the claim
the root-level check applies and succeeds; the code instead applies the
nested-child check (the indent level is 1) and reports a
no-parent-context error. -/
theorem C1_counterexample :
    (lookupKey regPageOnly.targets "page").isSome = true ∧
    validateZMarkup regPageOnly "  page Home" =
      [{ severity := Severity.error,
         range := { start := { line := 0, character := 2 },
                    stop := { line := 0, character := 6 } },
         message := noParentMsg "page",
         source := "z-markup" }] := by
  decide

/-- C2, counterexample: the identifier `9bad` does not start with a
letter, yet the document `page 9bad` produces no diagnostic at all (the
line matches none of the classification regexes), not an
InvalidElementName error. -/
theorem C2_counterexample :
    namePat "9bad" = false ∧
    validateZMarkup regPageOnly "page 9bad" = [] := by
  decide

/-- C3, counterexample: `class` is reserved, yet the document that
declares an indented bare child named `class` inside a wildcard context
produces no diagnostic — `validateChild` performs no reserved-name
check. -/
theorem C3_counterexample :
    reservedNames.contains "class" = true ∧
    validateZMarkup regPageWild "page Home \x7b\n  class\n\x7d" = [] := by
  decide

/-- C4, counterexample: in the document `page Home { / foo Bar / }` the
keyword `foo` is nested inside the `page` context, whose allowed-children
set is the wildcard, and the only root-level keyword `page` is a
registered target, so the document is well-formed in the claim's sense;
the code still reports an unknown-root-element error for `foo` because
the line is written without indentation. -/
theorem C4_counterexample :
    isChildAllowed "foo"
      { elementType := "page", elementName := "Home", allowedChildren := ["*"],
        mode := Mode.markup, line := 0 } = true ∧
    validateZMarkup regPageWild "page Home \x7b\nfoo Bar\n\x7d" =
      [{ severity := Severity.error,
         range := { start := { line := 1, character := 0 },
                    stop := { line := 1, character := 3 } },
         message := unknownRootMsg "foo" ["workspace", "page"],
         source := "z-markup" }] := by
  decide

/-- C7, counterexample: the line `TODO TODO` contains two occurrences of
the marker (the second starting at character 5), yet exactly one Warning
is produced, anchored to the first occurrence. -/
theorem C7_counterexample :
    validateZLanguageText none "TODO TODO" = [todoDiag 0 0] ∧
    todoChars.isPrefixOf ("TODO TODO".data.drop 5) = true := by
  decide

/-- Resolution of a new context frame as the specification words it:
(a) the root marker takes every registered target kind, (b) a registered
target takes its own allowed children and mode, (c) a registered
namespace takes its allowed children with markup mode, (d) anything else
takes the wildcard set with markup mode. -/
def specResolveContext (reg : Registry) (keyword : String) : List String × Mode :=
  if keyword = "workspace" then
    (reg.targets.map Prod.fst, Mode.markup)
  else
    match lookupKey reg.targets keyword with
    | some t => (t.allowedChildren, t.mode)
    | none =>
      match lookupKey reg.namespaces keyword with
      | some n => (n.allowedChildren, Mode.markup)
      | none => (["*"], Mode.markup)

/-- C5: every pushed frame records exactly the keyword, name and line it
was pushed with, and its allowed-children set and mode are resolved by
the ordered case split of the specification; nothing else in the state
changes. -/
theorem C5_push_resolution (reg : Registry) (st : ParserState) (kw nm : String)
    (ln : Nat) :
    (pushContext reg st kw nm ln).contextStack =
      { elementType := kw, elementName := nm,
        allowedChildren := (specResolveContext reg kw).1,
        mode := (specResolveContext reg kw).2, line := ln } :: st.contextStack ∧
    (pushContext reg st kw nm ln).diagnostics = st.diagnostics := by
  exact ⟨rfl, rfl⟩

/-- C9: the `validateZMarkup` method resets the instance state on entry,
so a second run on the same text from the state left by the first run
returns the identical state, and the diagnostics of any run equal the
pure per-text diagnostic list. -/
theorem C9_idempotent (reg : Registry) (st : ParserState) (text : String) :
    runValidateZMarkup reg (runValidateZMarkup reg st text) text =
      runValidateZMarkup reg st text ∧
    (runValidateZMarkup reg st text).diagnostics = validateZMarkup reg text := by
  have h : ∀ s : ParserState,
      runValidateZMarkup reg s text =
        runValidateZMarkup reg { contextStack := [], diagnostics := [] } text :=
    fun s => rfl
  exact ⟨(h _).trans (h st).symm, congrArg ParserState.diagnostics (h st)⟩

/-- Exhaustive case list for a character in the JS whitespace class. -/
theorem isJsWs_mem (c : Char) (h : isJsWs c = true) :
    c ∈ ([' ', '\t', '\n', '\r', '\x0b', '\x0c', '\u00A0'] : List Char) := by
  unfold isJsWs at h
  simp only [Bool.or_eq_true, decide_eq_true_eq] at h
  rcases h with ((((((h | h) | h) | h) | h) | h) | h) <;> simp [h]

/-- An ASCII letter is not JS whitespace. -/
theorem letter_not_ws (c : Char) (h : isAsciiLetter c = true) : isJsWs c = false := by
  by_cases hw : isJsWs c
  · exfalso
    have hm := isJsWs_mem c hw
    fin_cases hm <;> revert h <;> decide
  · exact Bool.eq_false_iff.mpr hw

/-- An ASCII letter is not the slash character. -/
theorem letter_ne_slash (c : Char) (h : isAsciiLetter c = true) : c ≠ '/' := by
  intro he
  subst he
  revert h
  decide

/-- An ASCII letter is not the closing-brace character. -/
theorem letter_ne_rbrace (c : Char) (h : isAsciiLetter c = true) : c ≠ '\x7d' := by
  intro he
  subst he
  revert h
  decide

/-- A name character (letter, digit, underscore or dash) is not JS
whitespace. -/
theorem nameChar_not_ws (c : Char) (h : isNameChar c = true) : isJsWs c = false := by
  by_cases hw : isJsWs c
  · exfalso
    have hm := isJsWs_mem c hw
    fin_cases hm <;> revert h <;> decide
  · exact Bool.eq_false_iff.mpr hw

/-- A name character that is not a keyword character is the dash. -/
theorem nameChar_not_kw (c : Char) (hn : isNameChar c = true) (hk : isKwChar c = false) :
    c = '-' := by
  unfold isNameChar at hn
  rw [hk] at hn
  simpa [decide_eq_true_eq] using hn

/-- Dropping a predicate from a list ending in a non-satisfying element
keeps that element at the end. -/
theorem dropWhile_append_single (p : Char → Bool) (c : Char) (h : p c = false)
    (xs : List Char) :
    List.dropWhile p (xs ++ [c]) = List.dropWhile p xs ++ [c] := by
  induction xs with
  | nil => simp [List.dropWhile, h]
  | cons a as ih =>
    by_cases hpa : p a
    · simp [List.dropWhile_cons, hpa, ih]
    · simp [List.dropWhile_cons, hpa]

/-- The head of a `dropWhile` result does not satisfy the predicate. -/
theorem dropWhile_head_false (p : Char → Bool) (cs : List Char) (c : Char)
    (rest : List Char) (h : List.dropWhile p cs = c :: rest) : p c = false := by
  induction cs with
  | nil => simp [List.dropWhile] at h
  | cons a as ih =>
    rw [List.dropWhile_cons] at h
    by_cases hpa : p a
    · rw [if_pos hpa] at h
      exact ih h
    · rw [if_neg hpa] at h
      cases h
      exact Bool.eq_false_iff.mpr hpa

/-- Right-trimming a list whose head survives keeps the head. -/
theorem trimTail_cons (c : Char) (rest : List Char) (h : isJsWs c = false) :
    ∃ l, trimTail (c :: rest) = c :: l := by
  unfold trimTail
  rw [List.reverse_cons, dropWhile_append_single isJsWs c h, List.reverse_append]
  exact ⟨(rest.reverse.dropWhile isJsWs).reverse, rfl⟩

/-- The trimmed line keeps the first non-whitespace character as its
head. -/
theorem trimList_head (cs : List Char) (c : Char) (rest : List Char)
    (h : cs.dropWhile isJsWs = c :: rest) : ∃ l, trimList cs = c :: l := by
  unfold trimList
  rw [h]
  exact trimTail_cons c rest (dropWhile_head_false isJsWs cs c rest h)

/-- A comment prefix needs a leading slash. -/
theorem hasCommentPre_cons_ne (c : Char) (l : List Char) (h : c ≠ '/') :
    hasCommentPre (c :: l) = false := by
  cases l with
  | nil => rfl
  | cons c2 l2 =>
    unfold hasCommentPre
    simp only [Bool.and_eq_false_iff, beq_eq_false_iff_ne, ne_eq]
    exact Or.inl h

/-- C8: a line whose trimmed content is exactly a closing brace only
pops the context stack and never adds a diagnostic; when the stack is
already empty the whole state is unchanged (pop of an empty stack is a
no-op). -/
theorem C8_unmatched_close_tolerated (reg : Registry) (st : ParserState)
    (line : String) (n : Nat) (h : trimList line.data = ['\x7d']) :
    validateLine reg st line n = { st with contextStack := st.contextStack.tail } ∧
    (st.contextStack = [] → validateLine reg st line n = st) := by
  have h1 : validateLine reg st line n = popContext st := by
    unfold validateLine
    rw [h]
    rfl
  constructor
  · exact h1
  · intro he
    rw [h1]
    unfold popContext
    obtain ⟨cs, ds⟩ := st
    simp only at he
    subst he
    rfl

/-- C8 witness at the line `  }  ` with an empty stack. -/
theorem C8_witness :
    validateLine regPageOnly { contextStack := [], diagnostics := [] } "  \x7d  " 5 =
      { contextStack := [], diagnostics := [] } :=
  (C8_unmatched_close_tolerated regPageOnly
    { contextStack := [], diagnostics := [] } "  \x7d  " 5 (by decide)).2 rfl

/-- C6: a child validated while the top context carries the wildcard is
always accepted with no diagnostic, and the context pushed for a keyword
with no registry entry (not the root marker, not a target, not a
namespace) itself carries exactly the wildcard set, so the permission is
reproduced at every further depth. -/
theorem C6_wildcard_propagation :
    (∀ (st : ParserState) (e : ParsedElement) (ctx : ValidationContext)
        (rest : List ValidationContext),
        st.contextStack = ctx :: rest →
        ctx.allowedChildren.contains "*" = true →
        validateChild st e = st) ∧
    (∀ (reg : Registry) (st : ParserState) (kw nm : String) (ln : Nat),
        kw ≠ "workspace" →
        lookupKey reg.targets kw = none →
        lookupKey reg.namespaces kw = none →
        (pushContext reg st kw nm ln).contextStack.head? =
          some { elementType := kw, elementName := nm, allowedChildren := ["*"],
                 mode := Mode.markup, line := ln }) := by
  constructor
  · intro st e ctx rest hstack hwild
    unfold validateChild getCurrentContext
    rw [hstack]
    simp only [List.head?]
    unfold isChildAllowed
    rw [hwild]
    simp
  · intro reg st kw nm ln hkw ht hn
    unfold pushContext
    rw [if_neg hkw, ht, hn]
    rfl

/-- C6 witness: a concrete wildcard context accepts a concrete unknown
child, and pushing a concrete unregistered keyword yields the wildcard
frame. -/
theorem C6_wildcard_witness :
    validateChild
      { contextStack := [{ elementType := "posts", elementName := "posts",
                           allowedChildren := ["*"], mode := Mode.markup, line := 0 }],
        diagnostics := [] }
      { keyword := "anything", name := "anything", line := 1, startChar := 4,
        endChar := 12 } =
      { contextStack := [{ elementType := "posts", elementName := "posts",
                           allowedChildren := ["*"], mode := Mode.markup, line := 0 }],
        diagnostics := [] } ∧
    (pushContext regPageOnly { contextStack := [], diagnostics := [] }
        "posts" "posts" 0).contextStack.head? =
      some { elementType := "posts", elementName := "posts",
             allowedChildren := ["*"], mode := Mode.markup, line := 0 } :=
  ⟨C6_wildcard_propagation.1 _ _
      { elementType := "posts", elementName := "posts", allowedChildren := ["*"],
        mode := Mode.markup, line := 0 } [] rfl (by decide),
   C6_wildcard_propagation.2 regPageOnly { contextStack := [], diagnostics := [] }
      "posts" "posts" 0 (by decide) (by decide) (by decide)⟩

/-- On a line that is one bare identifier, the element regex fails: the
keyword run is followed by a dash or by the end of the line, never by
the mandatory whitespace. -/
theorem elementMatch_all_name_none (c : Char) (cs : List Char)
    (hc : isAsciiLetter c = true)
    (hmem : ∀ x ∈ c :: cs, isNameChar x = true)
    (hdrop : (c :: cs).dropWhile isJsWs = c :: cs) :
    elementMatch (c :: cs) = none := by
  simp only [elementMatch, hdrop, hc, if_true]
  cases hr2 : (c :: cs).dropWhile isKwChar with
  | nil => rfl
  | cons c2 r2 =>
    have hm2 : c2 ∈ c :: cs :=
      (List.dropWhile_sublist isKwChar).mem (by rw [hr2]; exact List.mem_cons_self c2 r2)
    have hk2 : isKwChar c2 = false := dropWhile_head_false isKwChar (c :: cs) c2 r2 hr2
    have hd2 : c2 = '-' := nameChar_not_kw c2 (hmem c2 hm2) hk2
    subst hd2
    simp [show isJsWs '-' = false from by decide]

/-- The simple-child regex requires indentation. -/
theorem childMatch_no_indent (c : Char) (cs : List Char) (hcw : isJsWs c = false) :
    childMatch (c :: cs) = none := by
  simp only [childMatch, List.takeWhile_cons, hcw]
  rfl

/-- The namespace regex requires indentation. -/
theorem namespaceMatch_no_indent (c : Char) (cs : List Char) (hcw : isJsWs c = false) :
    namespaceMatch (c :: cs) = none := by
  simp only [namespaceMatch, List.takeWhile_cons, hcw]
  rfl

/-- C10: a line consisting of a single bare identifier at column 0 (a
leading letter followed by name characters only, no whitespace) matches
none of the classification rules: the validator leaves the whole state
unchanged — no diagnostic, no stack change. -/
theorem C10_bare_root_identifier_noop (reg : Registry) (st : ParserState) (n : Nat)
    (c : Char) (cs : List Char) (hc : isAsciiLetter c = true)
    (hall : (c :: cs).all isNameChar = true) :
    validateLine reg st (String.mk (c :: cs)) n = st := by
  have hcw : isJsWs c = false := letter_not_ws c hc
  have hmem : ∀ x ∈ c :: cs, isNameChar x = true := List.all_eq_true.mp hall
  have hdrop : (c :: cs).dropWhile isJsWs = c :: cs := by
    rw [List.dropWhile_cons, if_neg (by simp [hcw])]
  have htrim : trimList (c :: cs) = c :: cs := by
    unfold trimList
    rw [hdrop]
    unfold trimTail
    cases hr : (c :: cs).reverse with
    | nil => exact absurd hr (by simp)
    | cons d ds =>
      have hd : d ∈ c :: cs := by
        have hdm : d ∈ (c :: cs).reverse := by
          rw [hr]
          exact List.mem_cons_self d ds
        exact List.mem_reverse.mp hdm
      have hdw : isJsWs d = false := nameChar_not_ws d (hmem d hd)
      rw [List.dropWhile_cons, if_neg (by simp [hdw]), ← hr, List.reverse_reverse]
  have hdata : (String.mk (c :: cs)).data = c :: cs := rfl
  simp only [validateLine, hdata, htrim]
  rw [if_neg (by simp), if_neg (by simp [hasCommentPre_cons_ne c cs (letter_ne_slash c hc)]),
    if_neg (by simp [letter_ne_rbrace c hc]),
    elementMatch_all_name_none c cs hc hmem hdrop,
    childMatch_no_indent c cs hcw, namespaceMatch_no_indent c cs hcw]

/-- C10 witness at the root-level line `home`. -/
theorem C10_witness :
    validateLine regPageOnly { contextStack := [], diagnostics := [] }
      (String.mk ['h', 'o', 'm', 'e']) 0 =
      { contextStack := [], diagnostics := [] } :=
  C10_bare_root_identifier_noop regPageOnly { contextStack := [], diagnostics := [] }
    0 'h' ['o', 'm', 'e'] (by decide) (by decide)

/-- The `ParsedElement` built by `validateLine` for an element-declaration
match. -/
def mkElem (m : ElemMatch) (n : Nat) : ParsedElement :=
  { keyword := m.keyword, name := m.name, line := n,
    startChar := m.indent, endChar := m.indent + m.keyword.length }

/-- The diagnostic record appended by `addDiagnostic`. -/
def mkDiag (e : ParsedElement) (msg : String) (sev : Severity) : MarkupDiagnostic :=
  { severity := sev,
    range := { start := { line := e.line, character := e.startChar },
               stop := { line := e.line, character := e.endChar } },
    message := msg,
    source := "z-markup" }

/-- `addDiagnostic` appends exactly one record. -/
theorem addDiagnostic_diagnostics (st : ParserState) (e : ParsedElement)
    (msg : String) (sev : Severity) :
    (addDiagnostic st e msg sev).diagnostics = st.diagnostics ++ [mkDiag e msg sev] :=
  rfl

/-- When the element regex matches, none of the earlier guards of
`validateLine` (blank, comment, closing brace) can fire, so the line is
processed exactly as an element declaration. -/
theorem validateLine_elementBranch (reg : Registry) (st : ParserState) (line : String)
    (n : Nat) (m : ElemMatch) (h : elementMatch line.data = some m) :
    validateLine reg st line n =
      (if m.openBrace then
        pushContext reg (validateElement reg st (mkElem m n) (m.indent / 2))
          m.keyword m.name n
      else validateElement reg st (mkElem m n) (m.indent / 2)) := by
  cases hr : line.data.dropWhile isJsWs with
  | nil =>
    exfalso
    simp only [elementMatch, hr] at h
    exact Option.noConfusion h
  | cons c r =>
    have hc : isAsciiLetter c = true := by
      by_contra hc'
      have hcf : isAsciiLetter c = false := Bool.eq_false_iff.mpr hc'
      simp only [elementMatch, hr, hcf] at h
      simp at h
    obtain ⟨l, hl⟩ := trimList_head line.data c r hr
    simp only [validateLine, hl, h]
    rw [if_neg (by simp),
      if_neg (by simp [hasCommentPre_cons_ne c l (letter_ne_slash c hc)]),
      if_neg (by simp [letter_ne_rbrace c hc])]
    rfl

/-- C1, amended: for an element-declaration line the choice between the
root-level check and the nested-child check is made by the line's
indentation level (half the leading-whitespace width), not by the stack
depth; the nested-child check consults the top of the stack as it is,
which may be empty. -/
theorem C1_amended_indent_decides (reg : Registry) (st : ParserState) (line : String)
    (n : Nat) (m : ElemMatch) (h : elementMatch line.data = some m) :
    validateLine reg st line n =
      (if m.openBrace then
        pushContext reg
          (if m.indent / 2 = 0 then
            validateRootElement reg (validateElementName st (mkElem m n)) (mkElem m n)
          else
            validateChildElement (validateElementName st (mkElem m n)) (mkElem m n)
              st.contextStack.head?)
          m.keyword m.name n
      else
        if m.indent / 2 = 0 then
          validateRootElement reg (validateElementName st (mkElem m n)) (mkElem m n)
        else
          validateChildElement (validateElementName st (mkElem m n)) (mkElem m n)
            st.contextStack.head?) := by
  rw [validateLine_elementBranch reg st line n m h]
  rfl

/-- C1 witness: the unindented line `page Home` gets the root-level
check even though the theorem was applied at an arbitrary (here empty)
stack. -/
theorem C1_amended_witness :
    validateLine regPageOnly { contextStack := [], diagnostics := [] } "page Home" 0 =
      validateRootElement regPageOnly
        (validateElementName { contextStack := [], diagnostics := [] }
          { keyword := "page", name := "Home", line := 0, startChar := 0, endChar := 4 })
        { keyword := "page", name := "Home", line := 0, startChar := 0, endChar := 4 } :=
  C1_amended_indent_decides regPageOnly { contextStack := [], diagnostics := [] }
    "page Home" 0 { indent := 0, keyword := "page", name := "Home", openBrace := false }
    (by decide)

/-- A reserved element name always makes `validateElementName` append
the reserved-name diagnostic. -/
theorem mem_validateElementName_reserved (st : ParserState) (e : ParsedElement)
    (h : reservedNames.contains e.name = true) :
    mkDiag e (reservedNameMsg e.name) Severity.error ∈
      (validateElementName st e).diagnostics := by
  unfold validateElementName
  rw [h]
  simp [addDiagnostic, mkDiag]

/-- `validateRootElement` only appends diagnostics. -/
theorem mem_diags_validateRootElement (reg : Registry) (st : ParserState)
    (e : ParsedElement) (d : MarkupDiagnostic) (hd : d ∈ st.diagnostics) :
    d ∈ (validateRootElement reg st e).diagnostics := by
  unfold validateRootElement
  repeat' split
  all_goals first
    | exact hd
    | (simp [addDiagnostic]; exact Or.inl hd)

/-- `validateChildElement` only appends diagnostics. -/
theorem mem_diags_validateChildElement (st : ParserState) (e : ParsedElement)
    (ctx : Option ValidationContext) (d : MarkupDiagnostic)
    (hd : d ∈ st.diagnostics) :
    d ∈ (validateChildElement st e ctx).diagnostics := by
  unfold validateChildElement
  repeat' split
  all_goals first
    | exact hd
    | (simp [addDiagnostic]; exact Or.inl hd)

/-- `pushContext` does not touch the diagnostics. -/
theorem pushContext_diagnostics (reg : Registry) (st : ParserState)
    (kw nm : String) (ln : Nat) :
    (pushContext reg st kw nm ln).diagnostics = st.diagnostics :=
  rfl

/-- C3, amended: an element-declaration line (keyword plus name, at any
indentation depth and over any stack) whose name token is reserved
always yields a reserved-name Error; the bare-child and namespace-style
shapes are not checked for reserved names (see the counterexample). -/
theorem C3_amended_reserved_element_name (reg : Registry) (st : ParserState)
    (line : String) (n : Nat) (m : ElemMatch)
    (h : elementMatch line.data = some m)
    (hres : reservedNames.contains m.name = true) :
    (validateLine reg st line n).diagnostics.any
      (fun d => decide (d.message = reservedNameMsg m.name ∧
        d.severity = Severity.error)) = true := by
  rw [validateLine_elementBranch reg st line n m h]
  have hD : mkDiag (mkElem m n) (reservedNameMsg m.name) Severity.error ∈
      (validateElement reg st (mkElem m n) (m.indent / 2)).diagnostics := by
    have hm := mem_validateElementName_reserved st (mkElem m n) hres
    unfold validateElement
    split
    · exact mem_diags_validateRootElement _ _ _ _ hm
    · exact mem_diags_validateChildElement _ _ _ _ hm
  rw [List.any_eq_true]
  refine ⟨mkDiag (mkElem m n) (reservedNameMsg m.name) Severity.error, ?_,
    by simp [mkDiag]⟩
  cases hob : m.openBrace
  · simpa [hob] using hD
  · simp only [hob, if_true]
    rw [pushContext_diagnostics]
    exact hD

/-- C3 witness: the root line `page class` (reserved name in the
element-declaration shape) yields the reserved-name error. -/
theorem C3_amended_witness :
    (validateLine regPageOnly { contextStack := [], diagnostics := [] }
        "page class" 0).diagnostics.any
      (fun d => decide (d.message = reservedNameMsg "class" ∧
        d.severity = Severity.error)) = true :=
  C3_amended_reserved_element_name regPageOnly
    { contextStack := [], diagnostics := [] } "page class" 0
    { indent := 0, keyword := "page", name := "class", openBrace := false }
    (by decide) (by decide)

/-- Appending on the right keeps a known head. -/
theorem head_of_append_left (s t : String) (c : Char)
    (h : ∃ r, s.data = c :: r) : ∃ r, (s ++ t).data = c :: r := by
  obtain ⟨r, hr⟩ := h
  exact ⟨r ++ t.data, by rw [String.data_append, hr]; rfl⟩

/-- A quoted token starts with the quote character. -/
theorem quoteTok_head (k : String) : ∃ r, (quoteTok k).data = '\x27' :: r := by
  unfold quoteTok
  exact head_of_append_left _ _ _ (head_of_append_left _ _ _ ⟨[], rfl⟩)

/-- Shape shared by every diagnostic the markup validator can emit:
Error severity, the `z-markup` source tag, and a message starting with a
quote, `U` or `w` (in particular never with `I`). -/
def diagShapeOk (d : MarkupDiagnostic) : Prop :=
  d.severity = Severity.error ∧ d.source = "z-markup" ∧
    ∃ c r, d.message.data = c :: r ∧ (c = '\x27' ∨ c = 'U' ∨ c = 'w')

/-- The reserved-name message starts with a quote. -/
theorem msgHead_reservedNameMsg (n : String) :
    ∃ r, (reservedNameMsg n).data = '\x27' :: r :=
  head_of_append_left _ _ _ (quoteTok_head n)

/-- The child-outside-context message starts with `U`. -/
theorem msgHead_unexpectedChildMsg (k : String) :
    ∃ r, (unexpectedChildMsg k).data = 'U' :: r :=
  head_of_append_left _ _ _ (head_of_append_left _ _ _ ⟨_, rfl⟩)

/-- The disallowed-child message starts with a quote. -/
theorem msgHead_notAllowedMsg (k p j : String) :
    ∃ r, (notAllowedMsg k p j).data = '\x27' :: r :=
  head_of_append_left _ _ _ (head_of_append_left _ _ _
    (head_of_append_left _ _ _ (head_of_append_left _ _ _ (quoteTok_head k))))

/-- The no-parent-context message starts with `U`. -/
theorem msgHead_noParentMsg (k : String) :
    ∃ r, (noParentMsg k).data = 'U' :: r :=
  head_of_append_left _ _ _ (head_of_append_left _ _ _ ⟨_, rfl⟩)

/-- The unsupported-workspace message starts with `w`. -/
theorem msgHead_workspaceUnsupportedMsg :
    ∃ r, workspaceUnsupportedMsg.data = 'w' :: r :=
  ⟨_, rfl⟩

/-- The unknown-root message starts with `U`. -/
theorem msgHead_unknownRootMsg (k : String) (v : List String) :
    ∃ r, (unknownRootMsg k v).data = 'U' :: r :=
  head_of_append_left _ _ _ (head_of_append_left _ _ _
    (head_of_append_left _ _ _ ⟨_, rfl⟩))

/-- A diagnostic appended by `addDiagnostic` with Error severity and a
message of the right head shape satisfies `diagShapeOk`. -/
theorem diagShapeOk_mkDiag (e : ParsedElement) (msg : String) (c : Char)
    (hm : ∃ r, msg.data = c :: r) (hc : c = '\x27' ∨ c = 'U' ∨ c = 'w') :
    diagShapeOk (mkDiag e msg Severity.error) := by
  obtain ⟨r, hr⟩ := hm
  exact ⟨rfl, rfl, c, r, hr, hc⟩

/-- Every diagnostic added by `validateChild` has the common shape. -/
theorem diags_shape_validateChild (st : ParserState) (e : ParsedElement)
    (d : MarkupDiagnostic) (hd : d ∈ (validateChild st e).diagnostics) :
    d ∈ st.diagnostics ∨ diagShapeOk d := by
  unfold validateChild at hd
  split at hd
  · rw [addDiagnostic_diagnostics] at hd
    rcases List.mem_append.mp hd with h1 | h1
    · exact Or.inl h1
    · rw [List.mem_singleton] at h1
      subst h1
      exact Or.inr (diagShapeOk_mkDiag _ _ 'U' (msgHead_unexpectedChildMsg _)
        (Or.inr (Or.inl rfl)))
  · split at hd
    · exact Or.inl hd
    · rw [addDiagnostic_diagnostics] at hd
      rcases List.mem_append.mp hd with h1 | h1
      · exact Or.inl h1
      · rw [List.mem_singleton] at h1
        subst h1
        exact Or.inr (diagShapeOk_mkDiag _ _ '\x27' (msgHead_notAllowedMsg _ _ _)
          (Or.inl rfl))

/-- Every diagnostic added by `validateChildElement` has the common
shape. -/
theorem diags_shape_validateChildElement (st : ParserState) (e : ParsedElement)
    (ctx : Option ValidationContext) (d : MarkupDiagnostic)
    (hd : d ∈ (validateChildElement st e ctx).diagnostics) :
    d ∈ st.diagnostics ∨ diagShapeOk d := by
  unfold validateChildElement at hd
  split at hd
  · rw [addDiagnostic_diagnostics] at hd
    rcases List.mem_append.mp hd with h1 | h1
    · exact Or.inl h1
    · rw [List.mem_singleton] at h1
      subst h1
      exact Or.inr (diagShapeOk_mkDiag _ _ 'U' (msgHead_noParentMsg _)
        (Or.inr (Or.inl rfl)))
  · split at hd
    · exact Or.inl hd
    · rw [addDiagnostic_diagnostics] at hd
      rcases List.mem_append.mp hd with h1 | h1
      · exact Or.inl h1
      · rw [List.mem_singleton] at h1
        subst h1
        exact Or.inr (diagShapeOk_mkDiag _ _ '\x27' (msgHead_notAllowedMsg _ _ _)
          (Or.inl rfl))

/-- Every diagnostic added by `validateRootElement` has the common
shape. -/
theorem diags_shape_validateRootElement (reg : Registry) (st : ParserState)
    (e : ParsedElement) (d : MarkupDiagnostic)
    (hd : d ∈ (validateRootElement reg st e).diagnostics) :
    d ∈ st.diagnostics ∨ diagShapeOk d := by
  unfold validateRootElement at hd
  split at hd
  · split at hd
    · rw [addDiagnostic_diagnostics] at hd
      rcases List.mem_append.mp hd with h1 | h1
      · exact Or.inl h1
      · rw [List.mem_singleton] at h1
        subst h1
        exact Or.inr (diagShapeOk_mkDiag _ _ 'w' msgHead_workspaceUnsupportedMsg
          (Or.inr (Or.inr rfl)))
    · exact Or.inl hd
  · split at hd
    · exact Or.inl hd
    · rw [addDiagnostic_diagnostics] at hd
      rcases List.mem_append.mp hd with h1 | h1
      · exact Or.inl h1
      · rw [List.mem_singleton] at h1
        subst h1
        exact Or.inr (diagShapeOk_mkDiag _ _ 'U' (msgHead_unknownRootMsg _ _)
          (Or.inr (Or.inl rfl)))

/-- With a syntactically valid name the invalid-name branch is skipped,
and the only possible addition is the reserved-name diagnostic. -/
theorem diags_shape_validateElementName (st : ParserState) (e : ParsedElement)
    (hnp : namePat e.name = true) (d : MarkupDiagnostic)
    (hd : d ∈ (validateElementName st e).diagnostics) :
    d ∈ st.diagnostics ∨ diagShapeOk d := by
  unfold validateElementName at hd
  rw [hnp] at hd
  simp only [if_true] at hd
  split at hd
  · rw [addDiagnostic_diagnostics] at hd
    rcases List.mem_append.mp hd with h1 | h1
    · exact Or.inl h1
    · rw [List.mem_singleton] at h1
      subst h1
      exact Or.inr (diagShapeOk_mkDiag _ _ '\x27' (msgHead_reservedNameMsg _)
        (Or.inl rfl))
  · exact Or.inl hd

theorem letter_isNameChar (c : Char) (h : isAsciiLetter c = true) : isNameChar c = true := by
  unfold isNameChar isKwChar
  rw [h]
  rfl

theorem elementMatch_namePat (cs : List Char) (m : ElemMatch)
    (h : elementMatch cs = some m) : namePat m.name = true := by
  simp only [elementMatch] at h
  split at h
  · exact Option.noConfusion h
  · split at h
    · split at h
      · exact Option.noConfusion h
      · split at h
        · split at h
          · exact Option.noConfusion h
          · split at h
            · have hm := Option.some.inj h
              subst hm
              rename_i ch tl heq3 hc3
              rw [heq3, List.takeWhile_cons_of_pos (letter_isNameChar ch hc3)]
              show (isAsciiLetter ch && (List.takeWhile isNameChar tl).all isNameChar) = true
              rw [hc3, List.all_takeWhile]
              rfl
            · exact Option.noConfusion h
        · exact Option.noConfusion h
    · exact Option.noConfusion h

theorem diags_shape_validateElement (reg : Registry) (st : ParserState)
    (e : ParsedElement) (lvl : Nat) (hnp : namePat e.name = true)
    (d : MarkupDiagnostic)
    (hd : d ∈ (validateElement reg st e lvl).diagnostics) :
    d ∈ st.diagnostics ∨ diagShapeOk d := by
  unfold validateElement at hd
  split at hd
  · rcases diags_shape_validateRootElement reg _ e d hd with h1 | h1
    · exact diags_shape_validateElementName st e hnp d h1
    · exact Or.inr h1
  · rcases diags_shape_validateChildElement _ e _ d hd with h1 | h1
    · exact diags_shape_validateElementName st e hnp d h1
    · exact Or.inr h1

theorem diags_shape_validateLine (reg : Registry) (st : ParserState)
    (line : String) (n : Nat) (d : MarkupDiagnostic)
    (hd : d ∈ (validateLine reg st line n).diagnostics) :
    d ∈ st.diagnostics ∨ diagShapeOk d := by
  simp only [validateLine] at hd
  split at hd
  · exact Or.inl hd
  · split at hd
    · exact Or.inl hd
    · split at hd
      · exact Or.inl hd
      · split at hd
        · rename_i m heq
          split at hd
          · exact diags_shape_validateElement reg st _ _
              (elementMatch_namePat line.data m heq) d hd
          · exact diags_shape_validateElement reg st _ _
              (elementMatch_namePat line.data m heq) d hd
        · split at hd
          · split at hd
            · exact diags_shape_validateChild st _ d hd
            · exact diags_shape_validateChild st _ d hd
          · split at hd
            · split at hd
              · exact diags_shape_validateChild st _ d hd
              · exact diags_shape_validateChild st _ d hd
            · exact Or.inl hd

theorem diags_shape_foldl (reg : Registry) (rows : List (Nat × String))
    (st : ParserState) (d : MarkupDiagnostic)
    (hd : d ∈ (rows.foldl (fun s p => validateLine reg s p.2 p.1) st).diagnostics) :
    d ∈ st.diagnostics ∨ diagShapeOk d := by
  induction rows generalizing st with
  | nil => exact Or.inl hd
  | cons p rows ih =>
    rw [List.foldl_cons] at hd
    rcases ih (validateLine reg st p.2 p.1) hd with h1 | h1
    · exact diags_shape_validateLine reg st p.2 p.1 d h1
    · exact Or.inr h1

theorem diags_shape_validateZMarkup (reg : Registry) (text : String)
    (d : MarkupDiagnostic) (hd : d ∈ validateZMarkup reg text) : diagShapeOk d := by
  rcases diags_shape_foldl reg (splitLines text).enum
      { contextStack := [], diagnostics := [] } d hd with h1 | h1
  · exact absurd h1 (List.not_mem_nil d)
  · exact h1

theorem C2_amended_no_invalid_name_diag (reg : Registry) (text : String) :
    (validateZMarkup reg text).all
      (fun d => !(("Invalid element name ".data).isPrefixOf d.message.data)) = true := by
  rw [List.all_eq_true]
  intro d hd
  obtain ⟨-, -, c, r, hmsg, hc⟩ := diags_shape_validateZMarkup reg text d hd
  show (!(("Invalid element name ".data).isPrefixOf d.message.data)) = true
  rw [hmsg]
  rcases hc with rfl | rfl | rfl <;> rfl

/-- Every marker-scan diagnostic is a Warning. -/
theorem todoScan_severity (text : String) (d : MarkupDiagnostic)
    (hd : d ∈ todoScan text) : d.severity = Severity.warning := by
  unfold todoScan at hd
  obtain ⟨p, -, hp⟩ := List.mem_filterMap.mp hd
  cases h : indexOfSub todoChars p.2.data 0 with
  | none => rw [h] at hp; exact Option.noConfusion hp
  | some j =>
    rw [h] at hp
    cases Option.some.inj hp
    rfl

/-- The length of a `filterMap` equals the number of elements the
function keeps. -/
theorem length_filterMap_isSome {α β : Type} (g : α → Option β) (l : List α) :
    (l.filterMap g).length = (l.filter (fun a => (g a).isSome)).length := by
  induction l with
  | nil => rfl
  | cons a t ih => cases hg : g a <;> simp [List.filterMap_cons, List.filter_cons, hg, ih]

/-- Filtering an enumeration by a predicate on the payload keeps as many
elements as filtering the plain list. -/
theorem length_filter_enumFrom {α : Type} (q : α → Bool) (l : List α) :
    ∀ i, ((List.enumFrom i l).filter (fun p => q p.2)).length =
      (l.filter q).length := by
  induction l with
  | nil => intro i; rfl
  | cons a t ih =>
    intro i
    rw [List.enumFrom_cons, List.filter_cons, List.filter_cons]
    cases hq : q a <;> simp [hq, ih (i + 1)]

/-- C7, amended: for every input, the Warning diagnostics of
`validateZLanguageText` are exactly the marker scan — whether the
registry loaded or not — and the scan holds exactly one Warning per line
containing the marker (anchored at the first occurrence), never one per
occurrence. -/
theorem C7_amended_one_warning_per_line (regLoad : Option Registry) (text : String) :
    (validateZLanguageText regLoad text).filter
      (fun d => decide (d.severity = Severity.warning)) = todoScan text ∧
    (todoScan text).length =
      ((splitLines text).filter
        (fun l => (indexOfSub todoChars l.data 0).isSome)).length := by
  constructor
  · have htodo : (todoScan text).filter
        (fun d => decide (d.severity = Severity.warning)) = todoScan text := by
      rw [List.filter_eq_self]
      intro d hd
      rw [todoScan_severity text d hd]
      simp
    cases regLoad with
    | none => exact htodo
    | some reg =>
      unfold validateZLanguageText
      rw [List.filter_append, htodo]
      have hmk : ((validateZMarkup reg text).map
          (fun d => { severity := d.severity, range := d.range, message := d.message,
                      source := d.source : MarkupDiagnostic })).filter
            (fun d => decide (d.severity = Severity.warning)) = [] := by
        rw [List.filter_eq_nil_iff]
        intro d hd
        obtain ⟨d', hd', hconv⟩ := List.mem_map.mp hd
        have hsev := (diags_shape_validateZMarkup reg text d' hd').1
        rw [← hconv]
        simp [hsev]
      rw [hmk, List.nil_append]
  · unfold todoScan
    rw [length_filterMap_isSome]
    have hpred : ∀ p ∈ (splitLines text).enum,
        ((fun p : Nat × String =>
          match indexOfSub todoChars p.2.data 0 with
          | some j => some (todoDiag p.1 j)
          | none => none) p).isSome =
          (fun l : String => (indexOfSub todoChars l.data 0).isSome) p.2 := by
      intro p _
      cases h : indexOfSub todoChars p.2.data 0 <;> simp [h]
    rw [List.filter_congr hpred, List.enum_eq_enumFrom]
    exact length_filter_enumFrom
      (fun l : String => (indexOfSub todoChars l.data 0).isSome) (splitLines text) 0

theorem validateElementName_contextStack (st : ParserState) (e : ParsedElement) :
    (validateElementName st e).contextStack = st.contextStack := by
  simp only [validateElementName, addDiagnostic]
  split <;> split <;> rfl

theorem validateRootElement_contextStack (reg : Registry) (st : ParserState)
    (e : ParsedElement) :
    (validateRootElement reg st e).contextStack = st.contextStack := by
  simp only [validateRootElement, addDiagnostic]
  repeat' split
  all_goals rfl

theorem validateChildElement_contextStack (st : ParserState) (e : ParsedElement)
    (ctx : Option ValidationContext) :
    (validateChildElement st e ctx).contextStack = st.contextStack := by
  simp only [validateChildElement, addDiagnostic]
  repeat' split
  all_goals rfl

theorem validateChild_contextStack (st : ParserState) (e : ParsedElement) :
    (validateChild st e).contextStack = st.contextStack := by
  simp only [validateChild, addDiagnostic]
  repeat' split
  all_goals rfl

theorem validateElement_contextStack (reg : Registry) (st : ParserState)
    (e : ParsedElement) (lvl : Nat) :
    (validateElement reg st e lvl).contextStack = st.contextStack := by
  simp only [validateElement]
  split
  · rw [validateRootElement_contextStack, validateElementName_contextStack]
  · rw [validateChildElement_contextStack, validateElementName_contextStack]

/-- The new frame pushed by `pushContext` does not depend on the state. -/
theorem pushContext_frame (reg : Registry) (kw nm : String) (ln : Nat) :
    ∃ f, ∀ st : ParserState,
      (pushContext reg st kw nm ln).contextStack = f :: st.contextStack :=
  ⟨_, fun _ => rfl⟩

/-- The stack after one line, from a given stack (the evolution is
independent of the diagnostics accumulated so far). -/
def stepStack (reg : Registry) (stack : List ValidationContext) (line : String)
    (i : Nat) : List ValidationContext :=
  (validateLine reg { contextStack := stack, diagnostics := [] } line i).contextStack

theorem validateLine_contextStack (reg : Registry) (st : ParserState)
    (line : String) (n : Nat) :
    (validateLine reg st line n).contextStack = stepStack reg st.contextStack line n := by
  unfold stepStack
  simp only [validateLine]
  by_cases h1 : trimList line.data = []
  · rw [if_pos h1, if_pos h1]
  · rw [if_neg h1, if_neg h1]
    by_cases h2 : hasCommentPre (trimList line.data) = true
    · rw [if_pos h2, if_pos h2]
    · rw [if_neg h2, if_neg h2]
      by_cases h3 : trimList line.data = ['\x7d']
      · rw [if_pos h3, if_pos h3]
        rfl
      · rw [if_neg h3, if_neg h3]
        cases he : elementMatch line.data with
        | some m =>
          simp only [he]
          obtain ⟨f, hf⟩ := pushContext_frame reg m.keyword m.name n
          cases hob : m.openBrace <;>
            simp [hob, hf, validateElement_contextStack]
        | none =>
          simp only [he]
          cases hc : childMatch line.data with
          | some m =>
            simp only [hc]
            obtain ⟨f, hf⟩ :=
              pushContext_frame reg (stripBrackets m.childName) (stripBrackets m.childName) n
            cases hob : m.openBrace <;>
              simp [hob, hf, validateChild_contextStack]
          | none =>
            simp only [hc]
            cases hns : namespaceMatch line.data with
            | some m =>
              simp only [hns]
              obtain ⟨f, hf⟩ := pushContext_frame reg m.childName m.childName n
              cases hob : m.openBrace <;>
                simp [hob, hf, validateChild_contextStack]
            | none => simp only [hns]

/-- Modelled from the spec, amended by the C4 counterexample: the
root-level condition of a well-formed document — the keyword is the root
marker (and the registry supports it) or a registered target. -/
def rootOk (reg : Registry) (kw : String) : Bool :=
  if kw = "workspace" then (lookupKey reg.targets "workspace").isSome
  else (lookupKey reg.targets kw).isSome

/-- Modelled from the spec, amended by the C4 counterexample: the nested
condition of a well-formed document — a non-empty stack whose top
context allows the keyword (directly or by wildcard). -/
def childOkTop (stack : List ValidationContext) (kw : String) : Bool :=
  match stack with
  | [] => false
  | ctx :: _ => isChildAllowed kw ctx

/-- Modelled from the spec, amended by the C4 counterexample: a line is
well-formed when it is blank, a comment, a closing brace, unclassified,
or a declaration whose keyword passes the root check (element lines at
indent level 0) or the top-context check (element lines at positive
indent, and bare/namespace children), with element names not reserved. -/
def lineOk (reg : Registry) (stack : List ValidationContext) (line : String) : Bool :=
  let t := trimList line.data
  if t = [] then true
  else if hasCommentPre t then true
  else if t = ['\x7d'] then true
  else
    match elementMatch line.data with
    | some m =>
      !(reservedNames.contains m.name) &&
        (if m.indent / 2 = 0 then rootOk reg m.keyword
         else childOkTop stack m.keyword)
    | none =>
      match childMatch line.data with
      | some m => childOkTop stack (stripBrackets m.childName)
      | none =>
        match namespaceMatch line.data with
        | some m => childOkTop stack m.childName
        | none => true

/-- Every enumerated line of the document is well-formed with respect to
the stack the validator has built up to that line. -/
def docOkFrom (reg : Registry) : List (Nat × String) → List ValidationContext → Bool
  | [], _ => true
  | p :: rest, stack =>
    lineOk reg stack p.2 && docOkFrom reg rest (stepStack reg stack p.2 p.1)

/-- Modelled from the spec, amended by the C4 counterexample: document
well-formedness. -/
def wellFormedDoc (reg : Registry) (text : String) : Bool :=
  docOkFrom reg (splitLines text).enum []

theorem validateRootElement_ok (reg : Registry) (st : ParserState) (e : ParsedElement)
    (h : rootOk reg e.keyword = true) : validateRootElement reg st e = st := by
  unfold rootOk at h
  unfold validateRootElement
  by_cases hw : e.keyword = "workspace"
  · rw [if_pos hw] at h
    rw [if_pos hw]
    cases hl : lookupKey reg.targets "workspace" with
    | none => rw [hl] at h; exact Bool.noConfusion h
    | some t => simp
  · rw [if_neg hw] at h
    rw [if_neg hw]
    cases hl : lookupKey reg.targets e.keyword with
    | none => rw [hl] at h; exact Bool.noConfusion h
    | some t => rfl

theorem validateChildElement_ok (st : ParserState) (e : ParsedElement)
    (h : childOkTop st.contextStack e.keyword = true) :
    validateChildElement st e (getCurrentContext st) = st := by
  unfold childOkTop at h
  unfold validateChildElement getCurrentContext
  cases hs : st.contextStack with
  | nil => rw [hs] at h; exact Bool.noConfusion h
  | cons ctx rest =>
    rw [hs] at h
    have h' : isChildAllowed e.keyword ctx = true := h
    simp only [List.head?]
    rw [if_pos h']

theorem validateChild_ok (st : ParserState) (e : ParsedElement)
    (h : childOkTop st.contextStack e.keyword = true) :
    validateChild st e = st := by
  unfold childOkTop at h
  unfold validateChild getCurrentContext
  cases hs : st.contextStack with
  | nil => rw [hs] at h; exact Bool.noConfusion h
  | cons ctx rest =>
    rw [hs] at h
    have h' : isChildAllowed e.keyword ctx = true := h
    simp only [List.head?]
    rw [if_pos h']

theorem validateElementName_ok (st : ParserState) (e : ParsedElement)
    (hnp : namePat e.name = true) (hres : reservedNames.contains e.name = false) :
    validateElementName st e = st := by
  unfold validateElementName
  rw [hnp, hres]
  simp

theorem validateElement_ok (reg : Registry) (st : ParserState) (e : ParsedElement)
    (lvl : Nat) (hnp : namePat e.name = true)
    (hres : reservedNames.contains e.name = false)
    (hchk : (if lvl = 0 then rootOk reg e.keyword
             else childOkTop st.contextStack e.keyword) = true) :
    validateElement reg st e lvl = st := by
  simp only [validateElement]
  rw [validateElementName_ok st e hnp hres]
  by_cases hl : lvl = 0
  · rw [if_pos hl] at hchk
    rw [if_pos hl]
    exact validateRootElement_ok reg st e hchk
  · rw [if_neg hl] at hchk
    rw [if_neg hl]
    exact validateChildElement_ok st e hchk

theorem validateLine_ok_diagnostics (reg : Registry) (st : ParserState)
    (line : String) (n : Nat) (hok : lineOk reg st.contextStack line = true) :
    (validateLine reg st line n).diagnostics = st.diagnostics := by
  simp only [lineOk] at hok
  simp only [validateLine]
  by_cases h1 : trimList line.data = []
  · rw [if_pos h1]
  · rw [if_neg h1] at hok ⊢
    by_cases h2 : hasCommentPre (trimList line.data) = true
    · rw [if_pos h2]
    · rw [if_neg h2] at hok ⊢
      by_cases h3 : trimList line.data = ['\x7d']
      · rw [if_pos h3]
        rfl
      · rw [if_neg h3] at hok ⊢
        cases he : elementMatch line.data with
        | some m =>
          simp only [he] at hok ⊢
          simp only [Bool.and_eq_true, Bool.not_eq_true'] at hok
          obtain ⟨hres, hchk⟩ := hok
          have hnp : namePat m.name = true := elementMatch_namePat line.data m he
          have hve := validateElement_ok reg st
            { keyword := m.keyword, name := m.name, line := n, startChar := m.indent,
              endChar := m.indent + m.keyword.length } (m.indent / 2) hnp hres hchk
          rw [hve]
          cases hob : m.openBrace <;> simp [pushContext_diagnostics]
        | none =>
          simp only [he] at hok ⊢
          cases hc : childMatch line.data with
          | some m =>
            simp only [hc] at hok ⊢
            have hvc := validateChild_ok st
              { keyword := stripBrackets m.childName, name := stripBrackets m.childName,
                line := n, startChar := m.indent,
                endChar := m.indent + m.childName.length } hok
            rw [hvc]
            cases hob : m.openBrace <;> simp [pushContext_diagnostics]
          | none =>
            simp only [hc] at hok ⊢
            cases hns : namespaceMatch line.data with
            | some m =>
              simp only [hns] at hok ⊢
              have hvc := validateChild_ok st
                { keyword := m.childName, name := m.childName, line := n,
                  startChar := m.indent,
                  endChar := m.indent + m.childName.length } hok
              rw [hvc]
              cases hob : m.openBrace <;> simp [pushContext_diagnostics]
            | none => simp only [hns]

theorem docOk_foldl (reg : Registry) (rows : List (Nat × String)) :
    ∀ (stack : List ValidationContext) (ds : List MarkupDiagnostic),
      docOkFrom reg rows stack = true →
      (rows.foldl (fun s p => validateLine reg s p.2 p.1)
        { contextStack := stack, diagnostics := ds }).diagnostics = ds := by
  induction rows with
  | nil => intro stack ds _; rfl
  | cons p rest ih =>
    intro stack ds hok
    unfold docOkFrom at hok
    rw [Bool.and_eq_true] at hok
    obtain ⟨h1, h2⟩ := hok
    rw [List.foldl_cons]
    have hstep : validateLine reg { contextStack := stack, diagnostics := ds } p.2 p.1 =
        { contextStack := stepStack reg stack p.2 p.1, diagnostics := ds } := by
      have hd := validateLine_ok_diagnostics reg
        { contextStack := stack, diagnostics := ds } p.2 p.1 h1
      have hs := validateLine_contextStack reg
        { contextStack := stack, diagnostics := ds } p.2 p.1
      have hEta : validateLine reg { contextStack := stack, diagnostics := ds } p.2 p.1 =
          { contextStack :=
              (validateLine reg { contextStack := stack, diagnostics := ds } p.2 p.1).contextStack,
            diagnostics :=
              (validateLine reg { contextStack := stack, diagnostics := ds } p.2 p.1).diagnostics } :=
        rfl
      rw [hEta, hs, hd]
    rw [hstep]
    exact ih (stepStack reg stack p.2 p.1) ds h2

/-- C4, amended: on every document in which each line is well-formed for
the indentation-based discipline the validator actually implements —
element lines at indent level 0 carry a supported root keyword, element
lines at positive indent level and indented bare/namespace children
carry a keyword allowed by the context on top of the stack at that line,
and no element name is reserved — the validator emits no diagnostics at
all, in particular zero Error-severity diagnostics. -/
theorem C4_amended_wellformed_no_errors (reg : Registry) (text : String)
    (h : wellFormedDoc reg text = true) :
    validateZMarkup reg text = [] := by
  unfold validateZMarkup runValidateZMarkup
  exact docOk_foldl reg (splitLines text).enum [] [] h

/-- C4 witness: a three-level document (registered root, wildcard
contexts below) validates with no diagnostics. -/
theorem C4_amended_witness :
    validateZMarkup regPageWild
      "page Home \x7b\n  posts \x7b\n    [slug]\n  \x7d\n\x7d" = [] :=
  C4_amended_wellformed_no_errors regPageWild
    "page Home \x7b\n  posts \x7b\n    [slug]\n  \x7d\n\x7d" (by decide)
